import Mathlib

/-!
Verification development for the stock-monitor repository's backtest core.

Prices and returns are embedded as rationals (`ℚ`); the Python floats are
idealised as exact rational arithmetic.  Calendar dates are embedded as
trading-day ordinals (`ℕ`): consecutive trading days are consecutive
naturals, so `get_trade_days(start, count)` becomes `List.range' start count`.
Pandas `NaN` never arises in this total embedding (a bar always carries
numeric fields), so the source's `pd.isna` guards are vacuously false here.
-/

/-! ## Python numeric primitives -/

/-- Python `int(x)` applied to a fraction: truncation toward zero.
`q.den` is positive, so this is `tdiv` of the numerator by the denominator. -/
def pyTrunc (q : ℚ) : ℤ := q.num.tdiv (q.den : ℤ)

/-- Round-half-to-even of a rational to an integer, Python's `round(y)`
idealised over exact rationals.  `Int.ediv` floors because `y.den > 0`. -/
def halfEvenRound (y : ℚ) : ℤ :=
  let fl : ℤ := y.num.ediv (y.den : ℤ)
  let frac : ℚ := y - (fl : ℚ)
  if frac < 1/2 then fl
  else if 1/2 < frac then fl + 1
  else if fl % 2 = 0 then fl else fl + 1

/-- Python `round(x, n)` on a fraction: round-half-to-even at `n` decimals. -/
def roundTo (n : ℕ) (x : ℚ) : ℚ := (halfEvenRound (x * 10 ^ n) : ℚ) / 10 ^ n

/-- Running maximum of a list of rationals starting from `m`. -/
def maxQgo (m : ℚ) : List ℚ → ℚ
  | [] => m
  | x :: t => if m < x then maxQgo x t else maxQgo m t

/-- `pandas` max of a list of rationals (`Series.max()`): `none` on an empty
series, else the running maximum. -/
def maxQ : List ℚ → Option ℚ
  | [] => none
  | a :: t => some (maxQgo a t)

/-! ## Cell 7 capital simulation (joinquant_volatility_v4.2.py lines 709-876,
joinquant_volatility_v4_backup.py lines 579-749)

The module-level constants of Cell 7 (`INIT_CAPITAL`, `MAX_PER_TRADE`,
`COMMISSION_PER_SIDE`, `MAX_POSITIONS`, `DAILY_LOSS_LIMIT`,
`MAX_CONSECUTIVE_LOSS`, `TOTAL_LOSS_LIMIT`) are gathered into a
configuration record; `simCfgV42` instantiates the source's values. -/

/-- Configuration of the Cell 7 capital simulation. -/
structure SimCfg where
  initCapital : ℚ
  maxPerTrade : ℚ
  commission : ℚ
  maxPositions : ℕ
  dailyLossLimit : ℚ
  maxConsecLoss : ℕ
  totalLossLimit : ℚ
  deriving DecidableEq

/-- The constants hard-coded at the top of Cell 7 in both v4.2 and v4_backup. -/
def simCfgV42 : SimCfg :=
  { initCapital := 50000, maxPerTrade := 10000, commission := 5
    maxPositions := 5, dailyLossLimit := -1000, maxConsecLoss := 10
    totalLossLimit := -20000 }

/-- One candidate trade from the signal collection phase: the fields of the
signal dict that the Cell 7 loop reads (`date`, `code`, `trigger_price`,
`sell_price`).  The date is a trading-day ordinal; the recorded exit happens
on the next trading day (`date + 1`), per the next-bar exit of Cell 3. -/
structure CandTrade where
  date : ℕ
  code : String
  buyPrice : ℚ
  sellPrice : ℚ
  deriving DecidableEq

/-- One realized-trade record appended to `trade_log`. -/
structure TradeRec where
  date : ℕ
  code : String
  shares : ℤ
  buyPrice : ℚ
  sellPrice : ℚ
  pnl : ℚ
  pnlPct : ℚ
  capitalAfter : ℚ
  deriving DecidableEq

/-- The three risk-control pause reasons of Cell 7, in source order. -/
inductive PauseReason where
  | dailyLoss
  | consecLoss
  | totalLoss
  deriving DecidableEq

/-- The mutable state of the Cell 7 simulation loop.  `positions` mirrors the
`positions` dict of v4_backup (v4.2's loop has no such variable and never
touches this field; v4_backup checks it but — in the source — never inserts
into it). -/
structure LedgerState where
  capital : ℚ
  peakCapital : ℚ
  maxDrawdown : ℚ
  maxDrawdownPct : ℚ
  positions : List String
  log : List TradeRec
  consecLosses : ℕ
  paused : Bool
  pauseReason : Option PauseReason
  dailyPnl : List (ℕ × ℚ)
  equityCurve : List (ℕ × ℚ)
  deriving DecidableEq

/-- `daily_pnl.get(date, 0)`. -/
def dailyPnlGet (l : List (ℕ × ℚ)) (d : ℕ) : ℚ :=
  match l.find? (fun p => p.1 = d) with
  | some p => p.2
  | none => 0

/-- `daily_pnl[date] = daily_pnl.get(date, 0) + x`. -/
def dailyPnlAdd (l : List (ℕ × ℚ)) (d : ℕ) (x : ℚ) : List (ℕ × ℚ) :=
  match l with
  | [] => [(d, x)]
  | p :: rest => if p.1 = d then (d, p.2 + x) :: rest else p :: dailyPnlAdd rest d x

/-- Initial loop state of Cell 7. -/
def initLedger (cfg : SimCfg) : LedgerState :=
  { capital := cfg.initCapital, peakCapital := cfg.initCapital
    maxDrawdown := 0, maxDrawdownPct := 0, positions := []
    log := [], consecLosses := 0, paused := false, pauseReason := none
    dailyPnl := [], equityCurve := [] }

/-- The three risk-control checks of Cell 7 (v4.2 lines 854-876), applied —
as in the source — to the already-updated loop state: (1) same-day
cumulative pnl at or below the daily loss limit pauses with the daily
reason; else (2) the consecutive-loss counter is updated and pauses on
reaching its cap; else (3) total pnl at or below the total loss limit
pauses.  A pause `break`s the loop: later candidates are never executed. -/
def riskCheck (cfg : SimCfg) (st2 : LedgerState) (d : ℕ) (pnl : ℚ) :
    LedgerState :=
  if dailyPnlGet st2.dailyPnl d ≤ cfg.dailyLossLimit then
    { st2 with paused := true, pauseReason := some .dailyLoss }
  else
    let cl2 := if pnl ≤ 0 then st2.consecLosses + 1 else 0
    if cfg.maxConsecLoss ≤ cl2 then
      { st2 with consecLosses := cl2, paused := true
                 pauseReason := some .consecLoss }
    else if st2.capital - cfg.initCapital ≤ cfg.totalLossLimit then
      { st2 with consecLosses := cl2, paused := true
                 pauseReason := some .totalLoss }
    else { st2 with consecLosses := cl2 }

/-- Share count of a fill: `int(min(MAX_PER_TRADE, capital - commission) /
buy_price / 100) * 100`. -/
def fillShares (cfg : SimCfg) (st : LedgerState) (t : CandTrade) : ℤ :=
  pyTrunc (min cfg.maxPerTrade (st.capital - cfg.commission) / t.buyPrice / 100) * 100

/-- Net pnl of a fill: `sell_revenue - buy_cost`. -/
def fillPnl (cfg : SimCfg) (st : LedgerState) (t : CandTrade) : ℚ :=
  ((fillShares cfg st t : ℚ) * t.sellPrice - cfg.commission) -
    ((fillShares cfg st t : ℚ) * t.buyPrice + cfg.commission)

/-- Capital after a fill: the buy cost is deducted and the sale revenue
credited in the same step. -/
def fillCapital (cfg : SimCfg) (st : LedgerState) (t : CandTrade) : ℚ :=
  st.capital - ((fillShares cfg st t : ℚ) * t.buyPrice + cfg.commission) +
    ((fillShares cfg st t : ℚ) * t.sellPrice - cfg.commission)

/-- The record appended to `trade_log` by a fill. -/
def fillRec (cfg : SimCfg) (st : LedgerState) (t : CandTrade) : TradeRec :=
  { date := t.date, code := t.code, shares := fillShares cfg st t
    buyPrice := t.buyPrice, sellPrice := t.sellPrice
    pnl := roundTo 2 (fillPnl cfg st t)
    pnlPct := roundTo 2 (fillPnl cfg st t /
      ((fillShares cfg st t : ℚ) * t.buyPrice + cfg.commission) * 100)
    capitalAfter := roundTo 2 (fillCapital cfg st t) }

/-- Execution of an affordable candidate (v4.2 lines 814-852): share sizing,
pnl, capital update, trade log, daily pnl, peak/drawdown and equity-curve
bookkeeping, then the risk checks on the updated state. -/
def execFill (cfg : SimCfg) (st : LedgerState) (t : CandTrade) : LedgerState :=
  let capital2 := fillCapital cfg st t
  let peak2 := if capital2 > st.peakCapital then capital2 else st.peakCapital
  let dd := capital2 - peak2
  let ddPct := if peak2 > 0 then dd / peak2 * 100 else 0
  riskCheck cfg
    { st with
        capital := capital2, peakCapital := peak2
        maxDrawdown := if dd < st.maxDrawdown then dd else st.maxDrawdown
        maxDrawdownPct := if dd < st.maxDrawdown then ddPct else st.maxDrawdownPct
        log := st.log ++ [fillRec cfg st t]
        dailyPnl := dailyPnlAdd st.dailyPnl t.date (fillPnl cfg st t)
        equityCurve := st.equityCurve ++ [(t.date, roundTo 2 capital2)] }
    t.date (fillPnl cfg st t)

/-- Shared tail of the Cell 7 loop body: skip the candidate when the
affordable amount `min(MAX_PER_TRADE, capital - COMMISSION_PER_SIDE)` cannot
buy one round lot or the floor-to-100 share count is non-positive, else
execute it. -/
def execTrade (cfg : SimCfg) (st : LedgerState) (t : CandTrade) : LedgerState :=
  if min cfg.maxPerTrade (st.capital - cfg.commission) < t.buyPrice * 100 then st
  else if pyTrunc (min cfg.maxPerTrade (st.capital - cfg.commission) / t.buyPrice / 100) * 100 ≤ 0
  then st
  else execFill cfg st t

/-- Loop body of v4.2's Cell 7 (lines 800-876): risk-pause guard, then
affordability, then the shared execution tail.  No open-position or
position-count check appears in this version. -/
def simStep42 (cfg : SimCfg) (st : LedgerState) (t : CandTrade) : LedgerState :=
  if st.paused then st else execTrade cfg st t

/-- Loop body of v4_backup's Cell 7 (lines 664-749): risk-pause guard, then
`if code in positions: continue`, then `if len(positions) >= MAX_POSITIONS:
continue`, then the shared execution tail.  As in the source, nothing is
ever inserted into `positions`. -/
def simStepBackup (cfg : SimCfg) (st : LedgerState) (t : CandTrade) : LedgerState :=
  if st.paused then st
  else if t.code ∈ st.positions then st
  else if cfg.maxPositions ≤ st.positions.length then st
  else execTrade cfg st t

/-- Cell 7 simulation of v4.2 starting from an arbitrary loop state. -/
def runLedger42From (cfg : SimCfg) (st : LedgerState) (ts : List CandTrade) :
    LedgerState :=
  ts.foldl (simStep42 cfg) st

/-- Cell 7 simulation of v4.2 over the date-sorted candidate stream. -/
def runLedger42 (cfg : SimCfg) (ts : List CandTrade) : LedgerState :=
  runLedger42From cfg (initLedger cfg) ts

/-- Cell 7 simulation of v4_backup over the date-sorted candidate stream. -/
def runLedgerBackup (cfg : SimCfg) (ts : List CandTrade) : LedgerState :=
  ts.foldl (simStepBackup cfg) (initLedger cfg)

/-! ## Bars -/

/-- One intraday (minute-frequency) bar, dated by its trading day.  Of the
fetched fields (`open`, `close`, `high`, `low`, `volume`) the scan logic
reads only `open` and `close`. -/
structure MBar where
  date : ℕ
  op : ℚ
  cl : ℚ
  deriving DecidableEq

/-- One daily bar. -/
structure DBar where
  date : ℕ
  op : ℚ
  hi : ℚ
  lo : ℚ
  cl : ℚ
  deriving DecidableEq

/-- `bar_return = close / open - 1` (v4.2 line 281, v5 line 408). -/
def barReturn (b : MBar) : ℚ := b.cl / b.op - 1

/-! ## Rolling pool (joinquant_volatility_v4.2.py, `build_rolling_pool`,
lines 85-211) -/

/-- Drawdown-ratio tier selection (v4.2 lines 159-164): first tier whose
`tier_cap` is at most `cap * 1e8` wins; default ratio otherwise. -/
def tierRatio : List (ℚ × ℚ) → ℚ → ℚ → ℚ
  | [], dflt, _ => dflt
  | (tcap, tr) :: rest, dflt, cap =>
      if tcap ≤ cap * 100000000 then tr else tierRatio rest dflt cap

/-- `MARKET_CAP_TIERS` (v4.2 lines 40-43). -/
def marketCapTiers : List (ℚ × ℚ) := [(100 * 10 ^ 8, 1/2), (50 * 10 ^ 8, 1/3)]

/-- `MAX_PRICE_RATIO_DEFAULT` (v4.2 line 39). -/
def maxPriceRatioDefault : ℚ := 1/3

/-- Body of the rolling-pool loop (v4.2 lines 172-181) at index `j`:
`year_high = high_arr[j-250:j].max()`, `current = close_arr[j]`, skip if the
date precedes the backtest start, and the date enters the pool iff
`current < year_high * ratio`. -/
def poolEligAt (btStart : ℕ) (ratio : ℚ) (bars : List DBar) (j : ℕ) : Option ℕ :=
  match (bars.drop j).head? with
  | none => none
  | some b =>
      if b.date < btStart then none
      else
        match maxQ (((bars.drop (j - 250)).take 250).map (·.hi)) with
        | none => none
        | some yearHigh => if b.cl < yearHigh * ratio then some b.date else none

/-- Pool dates of one instrument (v4.2 lines 153, 167-181): instruments with
fewer than 300 daily bars are skipped entirely; otherwise the index `j`
ranges over `range(250, len)`. -/
def buildRollingPoolDates (btStart : ℕ) (ratio : ℚ) (bars : List DBar) : List ℕ :=
  if bars.length < 300 then []
  else (List.range' 250 (bars.length - 250)).filterMap (poolEligAt btStart ratio bars)

/-! ## Signal scan of v4.2 (`backtest_single_rolling`, lines 241-433) -/

/-- Signal-trigger type: `'max_break'` or `'mult_break'`. -/
inductive SigType where
  | maxBreak
  | multBreak
  deriving DecidableEq

/-- Statistic used by `mult_break`: `'mean'` or `'median'`. -/
inductive StatMethod where
  | mean
  | median
  deriving DecidableEq

/-- `BUY_FEE` (v4.2 line 51). -/
def buyFee : ℚ := 15/100000

/-- `SELL_FEE` (v4.2 line 52). -/
def sellFee : ℚ := 15/100000

/-- `STAMP_TAX` (v4.2 line 53). -/
def stampTax : ℚ := 1/1000

/-- Insert into a sorted list (ascending). -/
def insertSorted {α : Type} [LinearOrder α] (x : α) : List α → List α
  | [] => [x]
  | a :: t => if x ≤ a then x :: a :: t else a :: insertSorted x t

/-- Insertion sort, ascending — model of Python `sorted` / pandas sorting. -/
def sortList {α : Type} [LinearOrder α] (l : List α) : List α :=
  l.foldr insertSorted []

/-- `pandas` median: middle of the sorted list, or the mean of the two
middles for even length. -/
def medianQ (l : List ℚ) : ℚ :=
  let s := sortList l
  let n := s.length
  if n % 2 = 1 then s.getD (n / 2) 0
  else (s.getD (n / 2 - 1) 0 + s.getD (n / 2) 0) / 2

/-- Threshold computation of v4.2 lines 312-327: `max_break` takes the max
of the window's returns; `mult_break` takes mean/median of the positive
returns (skip on an empty/`NaN`/non-positive base) times the multiplier. -/
def threshold42 (sigType : SigType) (sm : StatMethod) (mult : ℚ)
    (histReturns : List ℚ) : Option ℚ :=
  match sigType with
  | .maxBreak => maxQ histReturns
  | .multBreak =>
      let pos := histReturns.filter (fun r => 0 < r)
      let base? : Option ℚ :=
        match sm with
        | .mean => if pos.isEmpty then none else some (pos.sum / (pos.length : ℚ))
        | .median => some (if 0 < pos.length then medianQ pos else 0)
      match base? with
      | none => none
      | some base => if base ≤ 0 then none else some (base * mult)

/-- Minute-side evaluation of one pool day `d` (v4.2 lines 299-345): needs at
least 5 bars on `d`; the lookback window is the last `lookbackBars` returns
of the bars dated strictly before `d`; skip when the threshold is undefined
or `≤ 0`; else the first bar of `d` whose return exceeds the threshold
triggers.  Returns the trigger bar and the threshold. -/
def dayTrigger42 (minBars : List MBar) (lookbackBars : ℕ) (sigType : SigType)
    (sm : StatMethod) (mult : ℚ) (d : ℕ) : Option (MBar × ℚ) :=
  let dayBars := minBars.filter (fun b => b.date = d)
  if dayBars.length < 5 then none
  else
    let hist := minBars.filter (fun b => b.date < d)
    if hist.length < lookbackBars then none
    else
      let histReturns := (hist.map barReturn).drop (hist.length - lookbackBars)
      match threshold42 sigType sm mult histReturns with
      | none => none
      | some th =>
          if th ≤ 0 then none
          else
            match dayBars.find? (fun b => th < barReturn b) with
            | none => none
            | some tb => some (tb, th)

/-- Find the daily row whose date is `d` together with the row immediately
after it (v4.2 lines 348-356: locate `date_str` in the daily frame, skip
when there is no next row). -/
def findDatePair (d : ℕ) : List DBar → Option (DBar × DBar)
  | [] => none
  | x :: rest =>
      if x.date = d then
        match rest.head? with
        | none => none
        | some y => some (x, y)
      else findDatePair d rest

/-- `code.startswith(p)`. -/
def codeStartsWith (p : String) (code : String) : Bool :=
  p.data.isPrefixOf code.data

/-- How a trade exits on the next day: at the up-limit price, or at the
next day's close. -/
inductive SellKind where
  | limitUp
  | nextClose
  deriving DecidableEq

/-- One emitted signal of v4.2 (the internal keys of the signal dict).
`poolIdx` records the loop index `i` at emission (the value assigned to
`last_signal_date_idx`). -/
structure Sig42 where
  date : ℕ
  poolIdx : ℕ
  trigPrice : ℚ
  trigRet : ℚ
  threshold : ℚ
  sellPrice : ℚ
  sellKind : SellKind
  retPct : ℚ
  deriving DecidableEq

/-- Full evaluation of one pool day of v4.2 (lines 299-397): minute-side
trigger, then the next-day sell: up-limit percentage 20% for codes starting
`'68'`/`'30'` else 10%, limit price rounded to 2 decimals from the trigger
day's daily close; sell at the limit price when the next day's high reaches
it, else at the next day's close; net return after fees. -/
def evalDay42 (code : String) (minBars : List MBar) (daily : List DBar)
    (lookbackBars : ℕ) (sigType : SigType) (sm : StatMethod) (mult : ℚ)
    (d : ℕ) (i : ℕ) : Option Sig42 :=
  match dayTrigger42 minBars lookbackBars sigType sm mult d with
  | none => none
  | some (tb, th) =>
      match findDatePair d daily with
      | none => none
      | some (today, next) =>
          let limitPct : ℚ :=
            if codeStartsWith "68" code || codeStartsWith "30" code
            then 20/100 else 10/100
          let limitPrice := roundTo 2 (today.cl * (1 + limitPct))
          let sp := if limitPrice ≤ next.hi then limitPrice else next.cl
          let sk := if limitPrice ≤ next.hi then SellKind.limitUp else SellKind.nextClose
          let cost := tb.cl * buyFee + sp * (sellFee + stampTax)
          let ret := (sp - tb.cl - cost) / tb.cl * 100
          some { date := d, poolIdx := i, trigPrice := roundTo 3 tb.cl
                 trigRet := barReturn tb, threshold := th
                 sellPrice := roundTo 3 sp, sellKind := sk
                 retPct := roundTo 2 ret }

/-- The scan loop of v4.2 (lines 289-397): iterate the pool dates with index
`i`, skipping while `i - last_signal_date_idx <= cooldown`; a day that
produces a signal sets `last_signal_date_idx := i`. -/
def scan42Go (code : String) (minBars : List MBar) (daily : List DBar)
    (lookbackBars : ℕ) (sigType : SigType) (sm : StatMethod) (mult : ℚ)
    (cooldown : ℕ) : ℕ → ℤ → List ℕ → List Sig42
  | _, _, [] => []
  | i, lastIdx, d :: rest =>
      if (i : ℤ) - lastIdx ≤ (cooldown : ℤ) then
        scan42Go code minBars daily lookbackBars sigType sm mult cooldown
          (i + 1) lastIdx rest
      else
        match evalDay42 code minBars daily lookbackBars sigType sm mult d i with
        | none =>
            scan42Go code minBars daily lookbackBars sigType sm mult cooldown
              (i + 1) lastIdx rest
        | some s =>
            s :: scan42Go code minBars daily lookbackBars sigType sm mult cooldown
              (i + 1) (i : ℤ) rest

/-- `trade_dates = sorted([d for d in min_df['date'].unique() if str(d) in
valid_dates])` (v4.2 line 287). -/
def tradeDates42 (minBars : List MBar) (validDates : List ℕ) : List ℕ :=
  sortList (((minBars.map (·.date)).dedup).filter (fun d => validDates.contains d))

/-- `backtest_single_rolling` of v4.2 with the two lookback sizes as plain
arguments (the source computes them once from `freq`/`period` via
`lookback_days_map` and `get_lookback_bars` and uses them as values): the
daily frame must hold at least `lookbackDays + 30` rows and the minute frame
at least `lookbackBars` bars, else no signals (`return None`, embedded as
the empty list); then the scan loop runs over the sorted pool dates with
`last_signal_date_idx = -999`. -/
def scan42 (code : String) (minBars : List MBar) (daily : List DBar)
    (validDates : List ℕ) (lookbackDays lookbackBars : ℕ) (sigType : SigType)
    (sm : StatMethod) (mult : ℚ) (cooldown : ℕ) : List Sig42 :=
  if daily.length < lookbackDays + 30 then []
  else if minBars.length < lookbackBars then []
  else
    scan42Go code minBars daily lookbackBars sigType sm mult cooldown
      0 (-999) (tradeDates42 minBars validDates)

/-- K-line frequency grid (`FREQ_LIST`). -/
inductive Freq where
  | m1
  | m5
  | m15
  | m30
  deriving DecidableEq

/-- Lookback period grid (`LOOKBACK_PERIODS`). -/
inductive Period where
  | m3
  | y1
  deriving DecidableEq

/-- Bars per trading day by frequency (v4.2 line 236). -/
def barsPerDay : Freq → ℕ
  | .m1 => 240
  | .m5 => 48
  | .m15 => 16
  | .m30 => 8

/-- Trading days per lookback period (v4.2 lines 237, 261). -/
def lookbackDaysOf : Period → ℕ
  | .m3 => 63
  | .y1 => 250

/-- `get_lookback_bars` (v4.2 lines 231-238). -/
def getLookbackBars (f : Freq) (p : Period) : ℕ := barsPerDay f * lookbackDaysOf p

/-- `backtest_single_rolling` proper: `scan42` at the table-derived sizes. -/
def backtestSingleRolling (code : String) (minBars : List MBar)
    (daily : List DBar) (validDates : List ℕ) (f : Freq) (p : Period)
    (sigType : SigType) (sm : StatMethod) (mult : ℚ) (cooldown : ℕ) :
    List Sig42 :=
  scan42 code minBars daily validDates (lookbackDaysOf p) (getLookbackBars f p)
    sigType sm mult cooldown

/-- Composition of pool construction and signal scan as run by Cells 2-4:
the pool dates computed from the pool's daily history feed `valid_dates` of
the scan. -/
def pipelineSignals42 (code : String) (poolDaily : List DBar)
    (minBars : List MBar) (daily : List DBar) (btStart : ℕ) (ratio : ℚ)
    (lookbackDays lookbackBars : ℕ) (sigType : SigType) (sm : StatMethod)
    (mult : ℚ) (cooldown : ℕ) : List Sig42 :=
  scan42 code minBars daily (buildRollingPoolDates btStart ratio poolDaily)
    lookbackDays lookbackBars sigType sm mult cooldown

/-! ## Multi-day exit simulation of v5 (`simulate_daily_exit`,
strategies/joinquant_volatility_v5.py lines 276-374) -/

/-- `FEE_RATE_PCT` (v5 line 44): `5 * 2 / 10000 * 100`. -/
def feeRatePct : ℚ := 5 * 2 / 10000 * 100

/-- Exit reason of the multi-day simulation. -/
inductive ExitReason where
  | initialStop
  | breakevenStop
  | trailingProfit
  | timeExit
  deriving DecidableEq

/-- Result tuple of `simulate_daily_exit`: sell price, reason, holding days,
highest price during the hold, and max unrealized profit percentage. -/
structure ExitRes where
  sellPrice : ℚ
  reason : ExitReason
  holdDays : ℕ
  highest : ℚ
  maxProfitPct : ℚ
  deriving DecidableEq

/-- Per-day mutable state of `simulate_daily_exit`: the stop price, the
highest price since entry, and whether breakeven has been activated. -/
structure ExState where
  stop : ℚ
  highest : ℚ
  breakeven : Bool
  deriving DecidableEq

/-- Step 2 of a held day: `highest_since_buy` absorbs the day's high. -/
def updHighest (st : ExState) (bar : DBar) : ℚ :=
  if st.highest < bar.hi then bar.hi else st.highest

/-- Steps 2-3 of a held day: update the peak, then — once only — activate
the breakeven lock when the peak unrealized gain reaches the trigger,
moving the stop up to the entry price. -/
def updState (buyPrice bet : ℚ) (st : ExState) (bar : DBar) : ExState :=
  let hi2 := updHighest st bar
  if st.breakeven = false ∧ bet ≤ (hi2 - buyPrice) / buyPrice then
    { stop := buyPrice, highest := hi2, breakeven := true }
  else
    { stop := st.stop, highest := hi2, breakeven := st.breakeven }

/-- One held day of `simulate_daily_exit` (lines 338-363), in source order:
(1) if the day's low touches the stop, exit at the stop (reason breakeven
when the lock is active and the stop is at or above cost, else initial);
(2) update the highest-since-entry; (3) activate breakeven — once only —
when the peak unrealized gain reaches the trigger, moving the stop up to the
entry price; (4) recompute the trailing level from the peak and exit there
when it exceeds the stop and the day's low touches it; otherwise carry the
updated state to the next day. -/
def exitStep (buyPrice tpp bet : ℚ) (st : ExState) (bar : DBar)
    (holdDays : ℕ) : ExState ⊕ ExitRes :=
  if bar.lo ≤ st.stop then
    let reason := if st.breakeven = true ∧ buyPrice ≤ st.stop
                  then ExitReason.breakevenStop else ExitReason.initialStop
    .inr { sellPrice := roundTo 3 st.stop, reason := reason, holdDays := holdDays
           highest := roundTo 3 st.highest
           maxProfitPct := roundTo 2 ((st.highest - buyPrice) / buyPrice * 100) }
  else
    let st2 := updState buyPrice bet st bar
    let trail := st2.highest * (1 - tpp)
    if st2.stop < trail ∧ bar.lo ≤ trail then
      .inr { sellPrice := roundTo 3 trail, reason := .trailingProfit
             holdDays := holdDays, highest := roundTo 3 st2.highest
             maxProfitPct := roundTo 2 ((st2.highest - buyPrice) / buyPrice * 100) }
    else .inl st2

/-- The holding loop of `simulate_daily_exit` (lines 323-363) over the
trading days after the buy date, also returning the list of states carried
across surviving days (a day with no daily row is skipped, leaving the state
unchanged, but still counts toward the holding-day index). -/
def exitRun (daily : List DBar) (buyPrice tpp bet : ℚ) :
    List ℕ → ℕ → ExState → List ExState × (ExState ⊕ ExitRes)
  | [], _, st => ([], .inl st)
  | dt :: rest, dayIdx, st =>
      match (daily.filter (fun b => b.date = dt)).head? with
      | none =>
          let r := exitRun daily buyPrice tpp bet rest (dayIdx + 1) st
          (st :: r.1, r.2)
      | some bar =>
          match exitStep buyPrice tpp bet st bar (dayIdx + 1) with
          | .inr res => ([], .inr res)
          | .inl st2 =>
              let r := exitRun daily buyPrice tpp bet rest (dayIdx + 1) st2
              (st2 :: r.1, r.2)

/-- `simulate_daily_exit` (v5 lines 276-374).  `allDaily` stands for the
instrument's daily history; the fetch window `[buy_date, fetch_end]` with
`fetch_end = min(buy_date + max_hold_days*2 + 10, end_date)` is taken from
it.  Holding runs at most `max_hold_days` trading days; if no stop fires,
exit at the close of the `min(max_hold_days, len(daily))`-th day. -/
def simulateDailyExit (allDaily : List DBar) (buyDate : ℕ)
    (buyPrice isp tpp bet : ℚ) (maxHold endDate : ℕ) : Option ExitRes :=
  let fetchEnd := min (buyDate + maxHold * 2 + 10) endDate
  let fetched := allDaily.filter (fun b => buyDate ≤ b.date ∧ b.date ≤ fetchEnd)
  if fetched.length < 2 then none
  else
    let daily := fetched.filter (fun b => buyDate < b.date)
    if daily.length = 0 then none
    else
      let tdays := (List.range' (buyDate + 1) (fetchEnd - buyDate)).take maxHold
      let st0 : ExState := { stop := buyPrice * (1 - isp), highest := buyPrice
                             breakeven := false }
      match (exitRun daily buyPrice tpp bet tdays 0 st0).2 with
      | .inr res => some res
      | .inl stF =>
          let lastBar := daily.getD (min (maxHold - 1) (daily.length - 1))
            ⟨0, 0, 0, 0, 0⟩
          some { sellPrice := roundTo 3 lastBar.cl, reason := .timeExit
                 holdDays := min maxHold daily.length
                 highest := roundTo 3 stF.highest
                 maxProfitPct := roundTo 2 ((stF.highest - buyPrice) / buyPrice * 100) }

/-- The state trace of a multi-day exit simulation: the initial state
followed by the state at the end of each survived holding day. -/
def exitTrace (allDaily : List DBar) (buyDate : ℕ) (buyPrice isp tpp bet : ℚ)
    (maxHold endDate : ℕ) : List ExState :=
  let fetchEnd := min (buyDate + maxHold * 2 + 10) endDate
  let fetched := allDaily.filter (fun b => buyDate ≤ b.date ∧ b.date ≤ fetchEnd)
  let daily := fetched.filter (fun b => buyDate < b.date)
  let tdays := (List.range' (buyDate + 1) (fetchEnd - buyDate)).take maxHold
  let st0 : ExState := { stop := buyPrice * (1 - isp), highest := buyPrice
                         breakeven := false }
  st0 :: (exitRun daily buyPrice tpp bet tdays 0 st0).1

/-- The effective stop of a state: the trailing level `highest * (1 - tpp)`
takes effect only once it exceeds the stop price. -/
def effStop (tpp : ℚ) (st : ExState) : ℚ :=
  if st.stop < st.highest * (1 - tpp) then st.highest * (1 - tpp) else st.stop

/-! ## Signal scan of v5 (`backtest_signals`, v5 lines 377-526) -/

/-- One emitted signal of v5.  `poolIdx` records the loop index `i` at
emission (the value assigned to `last_signal_date_idx`). -/
structure Sig5 where
  date : ℕ
  poolIdx : ℕ
  trigPrice : ℚ
  trigRet : ℚ
  threshold : ℚ
  sellPrice : ℚ
  reason : ExitReason
  holdDays : ℕ
  highest : ℚ
  maxProfitPct : ℚ
  rawRetPct : ℚ
  netRetPct : ℚ
  deriving DecidableEq

/-- Evaluation of one pool day of v5 (lines 429-498): at least 5 bars on the
day; lookback window of the last `lookbackBars` returns strictly before the
day; threshold is the window maximum (skip when `≤ 0`); first bar exceeding
it triggers; the multi-day exit simulation prices the sale (skip when it
returns `None`). -/
def evalDayV5 (minBars : List MBar) (daily : List DBar) (lookbackBars : ℕ)
    (isp tpp bet : ℚ) (maxHold endDate : ℕ) (d : ℕ) (i : ℕ) : Option Sig5 :=
  let dayBars := minBars.filter (fun b => b.date = d)
  if dayBars.length < 5 then none
  else
    let hist := minBars.filter (fun b => b.date < d)
    if hist.length < lookbackBars then none
    else
      let histReturns := (hist.map barReturn).drop (hist.length - lookbackBars)
      match maxQ histReturns with
      | none => none
      | some th =>
          if th ≤ 0 then none
          else
            match dayBars.find? (fun b => th < barReturn b) with
            | none => none
            | some tb =>
                match simulateDailyExit daily d tb.cl isp tpp bet maxHold endDate with
                | none => none
                | some res =>
                    let rawRet := (res.sellPrice - tb.cl) / tb.cl * 100
                    some { date := d, poolIdx := i, trigPrice := tb.cl
                           trigRet := barReturn tb, threshold := th
                           sellPrice := res.sellPrice, reason := res.reason
                           holdDays := res.holdDays, highest := res.highest
                           maxProfitPct := res.maxProfitPct
                           rawRetPct := roundTo 2 rawRet
                           netRetPct := roundTo 2 (rawRet - feeRatePct) }

/-- The scan loop of v5 (lines 418-500): cooldown gate on the loop index,
then the no-overlap gate `date_str <= last_sell_date`, then the day
evaluation; on emission `last_signal_date_idx := i` and `last_sell_date`
becomes the `hold_days`-th trading day after the trigger date (taken from
`get_trade_days(start_date=date_str, count=hold_days+1)`). -/
def scanV5Go (minBars : List MBar) (daily : List DBar) (lookbackBars : ℕ)
    (isp tpp bet : ℚ) (maxHold endDate : ℕ) (cooldown : ℕ) :
    ℕ → ℤ → Option ℕ → List ℕ → List Sig5
  | _, _, _, [] => []
  | i, lastIdx, lastSell, d :: rest =>
      if (i : ℤ) - lastIdx ≤ (cooldown : ℤ) then
        scanV5Go minBars daily lookbackBars isp tpp bet maxHold endDate cooldown
          (i + 1) lastIdx lastSell rest
      else if (match lastSell with | some s => decide (d ≤ s) | none => false) = true then
        scanV5Go minBars daily lookbackBars isp tpp bet maxHold endDate cooldown
          (i + 1) lastIdx lastSell rest
      else
        match evalDayV5 minBars daily lookbackBars isp tpp bet maxHold endDate d i with
        | none =>
            scanV5Go minBars daily lookbackBars isp tpp bet maxHold endDate cooldown
              (i + 1) lastIdx lastSell rest
        | some sig =>
            let stds := List.range' d (sig.holdDays + 1)
            let ls2 := if sig.holdDays < stds.length then some (stds.getD sig.holdDays 0)
                       else lastSell
            sig :: scanV5Go minBars daily lookbackBars isp tpp bet maxHold endDate
              cooldown (i + 1) (i : ℤ) ls2 rest

/-- Per-stock body of `backtest_signals` (v5 lines 397-500): skip the stock
when the minute frame is shorter than the lookback window; else run the scan
loop over the sorted pool dates with `last_signal_date_idx = -999` and no
previous sell date. -/
def scanV5 (minBars : List MBar) (daily : List DBar) (validDates : List ℕ)
    (lookbackBars : ℕ) (isp tpp bet : ℚ) (maxHold endDate : ℕ)
    (cooldown : ℕ) : List Sig5 :=
  if minBars.length < lookbackBars then []
  else
    scanV5Go minBars daily lookbackBars isp tpp bet maxHold endDate cooldown
      0 (-999) none (tradeDates42 minBars validDates)

/-! ## Concrete inputs used by witnesses and counterexamples -/

/-- Six same-day candidate trades in six distinct instruments, each needing
one 9900-yuan lot at price 99. -/
def sixSameDayTrades : List CandTrade :=
  [⟨0, "A", 99, 99⟩, ⟨0, "B", 99, 99⟩, ⟨0, "C", 99, 99⟩,
   ⟨0, "D", 99, 99⟩, ⟨0, "E", 99, 99⟩, ⟨0, "F", 99, 99⟩]

/-- Two same-day candidate trades in the same instrument. -/
def dupCodeTrades : List CandTrade :=
  [⟨0, "A", 99, 99⟩, ⟨0, "A", 99, 99⟩]

/-- Eleven candidate trades, each losing 10 yuan net (commission only). -/
def elevenLosingTrades : List CandTrade := List.replicate 11 ⟨0, "A", 99, 99⟩

/-- Pool-and-scan daily history for the C3 counterexample: 310 daily bars,
`high` constantly 100; `close` is 60 everywhere except 40 on day 308. -/
def c3poolDaily : List DBar :=
  (List.range 310).map (fun j =>
    if j = 308 then ⟨308, 40, 100, 40, 40⟩ else ⟨j, 60, 100, 60, 60⟩)

/-- The same history with only the bar dated 308 altered (close 40 → 60). -/
def c3poolDaily2 : List DBar :=
  c3poolDaily.map (fun b => if b.date = 308 then { b with op := 60, lo := 60, cl := 60 } else b)

/-- Drawdown ratio for a 120-hundred-million market cap under the source
tiers: the 100-hundred-million tier wins, ratio `1/2`. -/
def c3ratio : ℚ := tierRatio marketCapTiers maxPriceRatioDefault 120

/-- Minute bars for the C3 counterexample: 8 lookback bars dated 307 (one
with return +1%), five bars dated 308 (the fourth returns +2%). -/
def c3minBars : List MBar :=
  (List.replicate 7 ⟨307, 100, 100⟩) ++ [⟨307, 100, 101⟩] ++
  [⟨308, 100, 100⟩, ⟨308, 100, 100⟩, ⟨308, 100, 100⟩, ⟨308, 100, 102⟩, ⟨308, 100, 100⟩]

/-- Minute bars for the C4 counterexample: an all-negative lookback window
(8 bars dated 0, return −1% each), then five bars dated 1, one of which
returns +2%. -/
def c4minBars : List MBar :=
  (List.replicate 8 ⟨0, 100, 99⟩) ++
  [⟨1, 100, 100⟩, ⟨1, 100, 100⟩, ⟨1, 100, 100⟩, ⟨1, 100, 102⟩, ⟨1, 100, 100⟩]

/-- Daily pair used by the C9 counterexample: trigger-day close 10.03, next
day high 11.03 and close 10.50. -/
def c9daily : List DBar :=
  [⟨308, 10, 100, 10, 1003/100⟩, ⟨309, 10, 1103/100, 10, 105/10⟩]

/-- Minute bars for the C9 counterexample (same shape as `c3minBars`). -/
def c9minBars : List MBar :=
  (List.replicate 7 ⟨307, 100, 100⟩) ++ [⟨307, 100, 101⟩] ++
  [⟨308, 100, 100⟩, ⟨308, 100, 100⟩, ⟨308, 100, 100⟩, ⟨308, 100, 102⟩, ⟨308, 100, 100⟩]

/-- Minute bars for the C8 witness: two lookback bars dated 9, then five
bars on each of the pool days 10-13. -/
def c8minBars : List MBar :=
  [⟨9, 100, 101⟩, ⟨9, 100, 101⟩,
   ⟨10, 100, 100⟩, ⟨10, 100, 100⟩, ⟨10, 100, 100⟩, ⟨10, 100, 105⟩, ⟨10, 100, 100⟩,
   ⟨11, 100, 100⟩, ⟨11, 100, 100⟩, ⟨11, 100, 100⟩, ⟨11, 100, 100⟩, ⟨11, 100, 100⟩,
   ⟨12, 100, 100⟩, ⟨12, 100, 100⟩, ⟨12, 100, 100⟩, ⟨12, 100, 100⟩, ⟨12, 100, 101⟩,
   ⟨13, 100, 100⟩, ⟨13, 100, 100⟩, ⟨13, 100, 100⟩, ⟨13, 100, 107⟩, ⟨13, 100, 100⟩]

/-- Daily history for the C8 witness: 40 flat daily bars. -/
def c8daily : List DBar := (List.range 40).map (fun j => ⟨j, 50, 50, 50, 50⟩)

/-- Daily bars for the C6 witness: stop survives two days (breakeven locks
on day 2), trailing exit on day 3. -/
def c6daily : List DBar :=
  [⟨1, 10, 103/10, 10, 102/10⟩, ⟨2, 10, 106/10, 101/10, 104/10⟩,
   ⟨3, 10, 115/10, 102/10, 11⟩]


/-- Net profit of a logged trade reconstructed from its raw fields:
`shares*(sell-buy) - 2*commission` (the log's `pnl` field itself is stored
rounded to 2 decimals). -/
def tradePnl (cfg : SimCfg) (r : TradeRec) : ℚ :=
  (r.shares : ℚ) * (r.sellPrice - r.buyPrice) - 2 * cfg.commission

/-- Single risky trade used by the risk-control priority checks: buying 100
shares at 99 and selling at 84 loses 1510 yuan. -/
def prioTrade : CandTrade := ⟨0, "A", 99, 84⟩

/-- Config where the daily-loss, consecutive-loss and total-loss triggers
all fire on `prioTrade`. -/
def cfgPrioA : SimCfg :=
  { initCapital := 50000, maxPerTrade := 10000, commission := 5
    maxPositions := 5, dailyLossLimit := -1000, maxConsecLoss := 1
    totalLossLimit := -1000 }

/-- Config where only the consecutive-loss and total-loss triggers fire on
`prioTrade`. -/
def cfgPrioB : SimCfg :=
  { cfgPrioA with dailyLossLimit := -10000 }

/-- Config where only the total-loss trigger fires on `prioTrade`. -/
def cfgPrioC : SimCfg :=
  { cfgPrioA with dailyLossLimit := -10000, maxConsecLoss := 10 }

/-- The stop-price invariant of a multi-day exit simulation: before the
breakeven lock the stop sits at `entry * (1 - initial_stop_pct)`, after it
the stop sits at the entry price. -/
def StopInv (buyPrice isp : ℚ) (st : ExState) : Prop :=
  (st.breakeven = false → st.stop = buyPrice * (1 - isp)) ∧
    (st.breakeven = true → st.stop = buyPrice)

/-- Modelled from the spec (amended for C9): the next-bar exit rule.  The
up-limit percentage is 20% for codes on the high-volatility boards (prefix
`'68'` or `'30'`), 10% otherwise; the limit price is the prior close times
one plus that percentage, rounded to 2 decimals; the trade exits at the
limit price when the next day's high reaches it, else at the next day's
close. -/
def specNextBarExit (code : String) (todayClose nextHigh nextClose : ℚ) :
    ℚ × SellKind :=
  let limitPct : ℚ :=
    if codeStartsWith "68" code || codeStartsWith "30" code then 20/100 else 10/100
  let limitPrice := roundTo 2 (todayClose * (1 + limitPct))
  if limitPrice ≤ nextHigh then (limitPrice, .limitUp) else (nextClose, .nextClose)

/-- Placeholder signal used only as a `getD` default in witnesses. -/
def dummySig42 : Sig42 :=
  { date := 0, poolIdx := 0, trigPrice := 0, trigRet := 0, threshold := 0
    sellPrice := 0, sellKind := .nextClose, retPct := 0 }

/-! # Theorems -/

/-- Once the strategy is paused, the remaining candidate stream leaves the
ledger state untouched. -/
theorem runLedger42From_paused (cfg : SimCfg) (st : LedgerState)
    (ts : List CandTrade) (h : st.paused = true) :
    runLedger42From cfg st ts = st := by
  induction ts with
  | nil => rfl
  | cons t ts ih =>
      show runLedger42From cfg (simStep42 cfg st t) ts = st
      rw [simStep42, if_pos h]
      exact ih

/-- The risk checks never touch capital. -/
theorem riskCheck_capital (cfg : SimCfg) (st2 : LedgerState) (d : ℕ) (pnl : ℚ) :
    (riskCheck cfg st2 d pnl).capital = st2.capital := by
  simp only [riskCheck]
  split_ifs <;> rfl

/-- The risk checks never touch the trade log. -/
theorem riskCheck_log (cfg : SimCfg) (st2 : LedgerState) (d : ℕ) (pnl : ℚ) :
    (riskCheck cfg st2 d pnl).log = st2.log := by
  simp only [riskCheck]
  split_ifs <;> rfl

/-- An executed fill appends exactly the fill record and moves the capital
by exactly the trade's net pnl: the sale proceeds are credited in the same
step that deducts the entry cost. -/
theorem execFill_log (cfg : SimCfg) (st : LedgerState) (t : CandTrade) :
    (execFill cfg st t).log = st.log ++ [fillRec cfg st t] := by
  simp only [execFill]
  rw [riskCheck_log]

/-- Capital after an executed fill. -/
theorem execFill_capital (cfg : SimCfg) (st : LedgerState) (t : CandTrade) :
    (execFill cfg st t).capital = st.capital + tradePnl cfg (fillRec cfg st t) := by
  simp only [execFill]
  rw [riskCheck_capital]
  show fillCapital cfg st t = _
  simp only [fillCapital, tradePnl, fillRec]
  ring

/-- Each step of the v4.2 capital loop either skips the candidate or appends
one record and moves the capital by exactly that record's net pnl. -/
theorem simStep42_log_capital (cfg : SimCfg) (st : LedgerState) (t : CandTrade) :
    ∃ L, (simStep42 cfg st t).log = st.log ++ L ∧
      (simStep42 cfg st t).capital = st.capital + (L.map (tradePnl cfg)).sum := by
  rw [simStep42]
  by_cases hp : st.paused = true
  · rw [if_pos hp]
    exact ⟨[], by simp, by simp⟩
  · rw [if_neg hp, execTrade]
    by_cases h1 : min cfg.maxPerTrade (st.capital - cfg.commission) < t.buyPrice * 100
    · rw [if_pos h1]
      exact ⟨[], by simp, by simp⟩
    · rw [if_neg h1]
      by_cases h2 :
          pyTrunc (min cfg.maxPerTrade (st.capital - cfg.commission) / t.buyPrice / 100) * 100 ≤ 0
      · rw [if_pos h2]
        exact ⟨[], by simp, by simp⟩
      · rw [if_neg h2]
        refine ⟨[fillRec cfg st t], execFill_log cfg st t, ?_⟩
        rw [execFill_capital]
        simp

/-- Run-level version of `simStep42_log_capital`. -/
theorem runLedger42From_log_capital (cfg : SimCfg) (st : LedgerState)
    (ts : List CandTrade) :
    ∃ L, (runLedger42From cfg st ts).log = st.log ++ L ∧
      (runLedger42From cfg st ts).capital = st.capital + (L.map (tradePnl cfg)).sum := by
  induction ts generalizing st with
  | nil => exact ⟨[], by simp [runLedger42From], by simp [runLedger42From]⟩
  | cons t ts ih =>
      obtain ⟨L1, hlog1, hcap1⟩ := simStep42_log_capital cfg st t
      obtain ⟨L2, hlog2, hcap2⟩ := ih (simStep42 cfg st t)
      refine ⟨L1 ++ L2, ?_, ?_⟩
      · show (runLedger42From cfg (simStep42 cfg st t) ts).log = _
        rw [hlog2, hlog1, List.append_assoc]
      · show (runLedger42From cfg (simStep42 cfg st t) ts).capital = _
        rw [hcap2, hcap1, List.map_append, List.sum_append]
        ring

/-- A positive Python truncation agrees with the mathematical floor. -/
theorem pyTrunc_pos_floor (q : ℚ) (h : 0 < pyTrunc q) : pyTrunc q = ⌊q⌋ := by
  have hden : (0 : ℤ) ≤ (q.den : ℤ) := by positivity
  have hnum : 0 ≤ q.num := by
    by_contra hn
    push_neg at hn
    have h1 : 0 ≤ (-q.num).tdiv (q.den : ℤ) := Int.tdiv_nonneg (by omega) hden
    rw [Int.neg_tdiv] at h1
    rw [pyTrunc] at h
    omega
  rw [pyTrunc, Int.tdiv_eq_ediv hnum hden, Rat.floor_def]

set_option maxRecDepth 4000 in
/-- C1 (counterexample): with the source constants, six same-day candidates
at price 99 all execute, although the cash released by settling none of the
first five (their recorded exits fall on the next trading day, after the
candidates' shared date) would leave less than one round lot's cost for the
sixth; after five fills the capital already contains the five trades' sale
proceeds. -/
theorem c1_counterexample :
    (runLedger42 simCfgV42 sixSameDayTrades).log.length = 6 ∧
    (∀ t ∈ sixSameDayTrades, t.date = 0 ∧ t.date < t.date + 1) ∧
    simCfgV42.initCapital - 5 * (100 * 99 + simCfgV42.commission) - simCfgV42.commission
      < 100 * 99 ∧
    (runLedger42 simCfgV42 (sixSameDayTrades.take 5)).capital = 49950 := by
  exact ⟨by with_unfolding_all decide, by with_unfolding_all decide,
    by with_unfolding_all decide, by with_unfolding_all rfl⟩

/-- C1 (amended): the v4.2 capital loop credits each trade's sale proceeds
in the same step that deducts its entry cost — there is no settlement pass
over open positions — so at the end of any candidate stream the capital
equals the initial capital plus the sum of the logged trades' net pnls. -/
theorem c1_thm (cfg : SimCfg) (ts : List CandTrade) :
    (runLedger42 cfg ts).capital =
      cfg.initCapital + ((runLedger42 cfg ts).log.map (tradePnl cfg)).sum := by
  obtain ⟨L, hlog, hcap⟩ := runLedger42From_log_capital cfg (initLedger cfg) ts
  rw [runLedger42, hcap, hlog]
  simp [initLedger]

set_option maxRecDepth 4000 in
/-- C2 (code bug exhibit): in v4_backup's Cell 7, `positions` is never
populated, so the open-position and position-count checks never reject:
six same-day candidates all execute under `MAX_POSITIONS = 5`, two
candidates for the same instrument both execute, and `positions` is still
empty afterwards. -/
theorem c2_bug_exhibit :
    (runLedgerBackup simCfgV42 sixSameDayTrades).log.length = 6 ∧
    simCfgV42.maxPositions = 5 ∧
    (∀ t ∈ sixSameDayTrades, t.date = 0) ∧
    (runLedgerBackup simCfgV42 dupCodeTrades).log.length = 2 ∧
    dupCodeTrades.map (·.code) = ["A", "A"] ∧
    (runLedgerBackup simCfgV42 sixSameDayTrades).positions = [] := by
  with_unfolding_all decide

set_option maxRecDepth 4000 in
/-- C5: once any risk trigger pauses the ledger, the remaining candidates
leave the state untouched; eleven all-losing candidates under the source
constants halt the run exactly after trade 10 with the consecutive-loss
reason (trade 11 is absent from the log); and when several triggers hold at
once, the recorded reason follows the source order daily → consecutive →
total. -/
theorem c5_thm :
    (∀ (cfg : SimCfg) (st : LedgerState) (ts : List CandTrade),
        st.paused = true → runLedger42From cfg st ts = st) ∧
    (runLedger42 simCfgV42 elevenLosingTrades).log.length = 10 ∧
    (runLedger42 simCfgV42 elevenLosingTrades).pauseReason = some .consecLoss ∧
    runLedger42 simCfgV42 elevenLosingTrades =
      runLedger42 simCfgV42 (elevenLosingTrades.take 10) ∧
    ((runLedger42 cfgPrioA [prioTrade]).pauseReason = some .dailyLoss ∧
      (runLedger42 cfgPrioA [prioTrade]).capital - cfgPrioA.initCapital
        ≤ cfgPrioA.totalLossLimit ∧ cfgPrioA.maxConsecLoss = 1) ∧
    ((runLedger42 cfgPrioB [prioTrade]).pauseReason = some .consecLoss ∧
      (runLedger42 cfgPrioB [prioTrade]).capital - cfgPrioB.initCapital
        ≤ cfgPrioB.totalLossLimit) ∧
    (runLedger42 cfgPrioC [prioTrade]).pauseReason = some .totalLoss := by
  refine ⟨runLedger42From_paused, by with_unfolding_all decide,
    by with_unfolding_all decide, by with_unfolding_all rfl,
    ⟨by with_unfolding_all decide, by with_unfolding_all decide,
      by with_unfolding_all decide⟩,
    ⟨by with_unfolding_all decide, by with_unfolding_all decide⟩,
    by with_unfolding_all decide⟩

set_option maxRecDepth 4000 in
/-- C5 (witness): the halted state reached by the consecutive-loss scenario
absorbs any further candidate. -/
theorem c5_witness :
    (runLedger42 simCfgV42 elevenLosingTrades).paused = true ∧
    runLedger42From simCfgV42 (runLedger42 simCfgV42 elevenLosingTrades) [prioTrade] =
      runLedger42 simCfgV42 elevenLosingTrades :=
  ⟨by with_unfolding_all decide,
   c5_thm.1 simCfgV42 _ [prioTrade] (by with_unfolding_all decide)⟩

/-- C7: whenever a step of the v4.2 capital loop logs a trade, its share
count equals `floor(min(max_per_trade, capital - commission) / price / 100)
* 100`. -/
theorem c7_thm (cfg : SimCfg) (st : LedgerState) (t : CandTrade) (r : TradeRec)
    (h : (simStep42 cfg st t).log = st.log ++ [r]) :
    r.shares =
      ⌊min cfg.maxPerTrade (st.capital - cfg.commission) / t.buyPrice / 100⌋ * 100 := by
  rw [simStep42] at h
  by_cases hp : st.paused = true
  · rw [if_pos hp] at h
    exact absurd (congrArg List.length h) (by simp)
  · rw [if_neg hp, execTrade] at h
    by_cases h1 : min cfg.maxPerTrade (st.capital - cfg.commission) < t.buyPrice * 100
    · rw [if_pos h1] at h
      exact absurd (congrArg List.length h) (by simp)
    · rw [if_neg h1] at h
      by_cases h2 :
          pyTrunc (min cfg.maxPerTrade (st.capital - cfg.commission) / t.buyPrice / 100) * 100 ≤ 0
      · rw [if_pos h2] at h
        exact absurd (congrArg List.length h) (by simp)
      · rw [if_neg h2] at h
        rw [execFill_log] at h
        have hr : r = fillRec cfg st t := by
          have h3 := List.append_cancel_left h
          simpa using h3.symm
        have hpos : 0 < pyTrunc (min cfg.maxPerTrade (st.capital - cfg.commission) / t.buyPrice / 100) := by
          by_contra hc
          push_neg at hc
          exact h2 (by nlinarith)
        rw [hr]
        show fillShares cfg st t = _
        rw [fillShares, pyTrunc_pos_floor _ hpos]

set_option maxRecDepth 4000 in
/-- C7 (witness): the concrete two-candidate scenario — initial capital
50000, per-trade cap 10000, commission 5, two same-day candidates needing
9000 notional — fills both with 100 shares via the floor-to-100 formula. -/
theorem c7_witness :
    (simStep42 simCfgV42 (runLedger42 simCfgV42 [⟨0, "A", 90, 90⟩]) ⟨0, "B", 90, 91⟩).log =
      (runLedger42 simCfgV42 [⟨0, "A", 90, 90⟩]).log ++
        [fillRec simCfgV42 (runLedger42 simCfgV42 [⟨0, "A", 90, 90⟩]) ⟨0, "B", 90, 91⟩] ∧
    (fillRec simCfgV42 (runLedger42 simCfgV42 [⟨0, "A", 90, 90⟩]) ⟨0, "B", 90, 91⟩).shares =
      ⌊min simCfgV42.maxPerTrade ((runLedger42 simCfgV42 [⟨0, "A", 90, 90⟩]).capital -
        simCfgV42.commission) / (90 : ℚ) / 100⌋ * 100 ∧
    (runLedger42 simCfgV42 [⟨0, "A", 90, 90⟩, ⟨0, "B", 90, 91⟩]).log.map (·.shares) =
      [100, 100] :=
  ⟨by with_unfolding_all rfl,
   c7_thm simCfgV42 (runLedger42 simCfgV42 [⟨0, "A", 90, 90⟩]) ⟨0, "B", 90, 91⟩
     (fillRec simCfgV42 (runLedger42 simCfgV42 [⟨0, "A", 90, 90⟩]) ⟨0, "B", 90, 91⟩)
     (by with_unfolding_all rfl),
   by with_unfolding_all rfl⟩

/-- The daily state update never lowers the peak. -/
theorem updState_highest_ge (buyPrice bet : ℚ) (st : ExState) (bar : DBar) :
    st.highest ≤ (updState buyPrice bet st bar).highest := by
  simp only [updState, updHighest]
  split_ifs <;> simp_all <;> linarith

/-- The daily state update never lowers the stop. -/
theorem updState_stop_ge (buyPrice isp bet : ℚ) (hb : 0 ≤ buyPrice)
    (hisp : 0 ≤ isp) (st : ExState) (bar : DBar)
    (hinv : StopInv buyPrice isp st) :
    st.stop ≤ (updState buyPrice bet st bar).stop := by
  simp only [updState]
  split_ifs with h
  · rw [hinv.1 h.1]
    nlinarith
  · exact le_refl _

/-- The daily state update preserves the stop-price invariant. -/
theorem updState_inv (buyPrice isp bet : ℚ) (st : ExState) (bar : DBar)
    (hinv : StopInv buyPrice isp st) :
    StopInv buyPrice isp (updState buyPrice bet st bar) := by
  simp only [updState]
  split_ifs with h
  · exact ⟨fun hf => by simp at hf, fun _ => rfl⟩
  · exact ⟨fun hf => hinv.1 hf, fun ht => hinv.2 ht⟩

/-- A survived holding day never lowers the stop or the peak, and preserves
the stop-price invariant. -/
theorem exitStep_inl (buyPrice isp tpp bet : ℚ) (hb : 0 ≤ buyPrice)
    (hisp : 0 ≤ isp) (st : ExState) (bar : DBar) (hd : ℕ) (st2 : ExState)
    (hinv : StopInv buyPrice isp st)
    (heq : exitStep buyPrice tpp bet st bar hd = .inl st2) :
    st.stop ≤ st2.stop ∧ st.highest ≤ st2.highest ∧ StopInv buyPrice isp st2 := by
  simp only [exitStep] at heq
  split_ifs at heq <;>
    first
      | exact Sum.noConfusion heq
      | (rw [Sum.inl.injEq] at heq
         subst heq
         exact ⟨updState_stop_ge buyPrice isp bet hb hisp st bar hinv,
           updState_highest_ge buyPrice bet st bar,
           updState_inv buyPrice isp bet st bar hinv⟩)

/-- The effective stop is monotone in the stop and the peak when the
trailing fraction is at most one. -/
theorem effStop_mono (tpp : ℚ) (htpp : tpp ≤ 1) (s1 s2 : ExState)
    (hst : s1.stop ≤ s2.stop) (hhi : s1.highest ≤ s2.highest) :
    effStop tpp s1 ≤ effStop tpp s2 := by
  have htr : s1.highest * (1 - tpp) ≤ s2.highest * (1 - tpp) :=
    mul_le_mul_of_nonneg_right hhi (by linarith)
  simp only [effStop]
  split_ifs <;> linarith

/-- Along the holding loop, the effective stop and the stop are both
non-decreasing and the stop-price invariant holds throughout. -/
theorem exitRun_chain (daily : List DBar) (buyPrice isp tpp bet : ℚ)
    (hb : 0 ≤ buyPrice) (hisp : 0 ≤ isp) (htpp : tpp ≤ 1) :
    ∀ (tdays : List ℕ) (dayIdx : ℕ) (st : ExState), StopInv buyPrice isp st →
      List.Chain' (fun a c => effStop tpp a ≤ effStop tpp c)
        (st :: (exitRun daily buyPrice tpp bet tdays dayIdx st).1) ∧
      List.Chain' (fun a c => a.stop ≤ c.stop)
        (st :: (exitRun daily buyPrice tpp bet tdays dayIdx st).1) ∧
      ∀ s ∈ st :: (exitRun daily buyPrice tpp bet tdays dayIdx st).1,
        StopInv buyPrice isp s := by
  intro tdays
  induction tdays with
  | nil =>
      intro dayIdx st hinv
      refine ⟨by simp [exitRun], by simp [exitRun], ?_⟩
      intro s hs
      simp [exitRun] at hs
      simpa [hs] using hinv
  | cons dt rest ih =>
      intro dayIdx st hinv
      rcases hbar : ((daily.filter (fun b => b.date = dt)).head?) with _ | bar
      · rw [exitRun, hbar]
        dsimp only
        obtain ⟨hc1, hc2, hc3⟩ := ih (dayIdx + 1) st hinv
        refine ⟨?_, ?_, ?_⟩
        · exact List.Chain'.cons (le_refl (effStop tpp st)) hc1
        · exact List.Chain'.cons (le_refl st.stop) hc2
        · intro s hs
          rw [List.mem_cons] at hs
          rcases hs with hs | hs
          · simpa [hs] using hinv
          · exact hc3 s hs
      · rw [exitRun, hbar]
        dsimp only
        rcases hstep : exitStep buyPrice tpp bet st bar (dayIdx + 1) with st2 | res
        · dsimp only
          obtain ⟨hstop, hhi, hinv2⟩ :=
            exitStep_inl buyPrice isp tpp bet hb hisp st bar (dayIdx + 1) st2 hinv hstep
          obtain ⟨hc1, hc2, hc3⟩ := ih (dayIdx + 1) st2 hinv2
          refine ⟨?_, ?_, ?_⟩
          · exact List.Chain'.cons (effStop_mono tpp htpp st st2 hstop hhi) hc1
          · exact List.Chain'.cons hstop hc2
          · intro s hs
            rw [List.mem_cons] at hs
            rcases hs with hs | hs
            · simpa [hs] using hinv
            · exact hc3 s hs
        · dsimp only
          refine ⟨by simp, by simp, ?_⟩
          intro s hs
          simp at hs
          simpa [hs] using hinv

/-- C6: in every multi-day exit simulation with a non-negative entry price
and initial-stop fraction and a trailing fraction at most one, the sequence
of per-day states has a non-decreasing effective stop (the trailing level
`peak * (1 - trailing_profit_pct)` takes effect only when above the stop),
the stop price itself never decreases, and the stop equals
`entry * (1 - initial_stop_pct)` until the breakeven lock activates and
equals the entry price afterwards. -/
theorem c6_thm (allDaily : List DBar) (buyDate : ℕ)
    (buyPrice isp tpp bet : ℚ) (maxHold endDate : ℕ)
    (hb : 0 ≤ buyPrice) (hisp : 0 ≤ isp) (htpp : tpp ≤ 1) :
    List.Chain' (fun a c => effStop tpp a ≤ effStop tpp c)
      (exitTrace allDaily buyDate buyPrice isp tpp bet maxHold endDate) ∧
    List.Chain' (fun a c => a.stop ≤ c.stop)
      (exitTrace allDaily buyDate buyPrice isp tpp bet maxHold endDate) ∧
    ∀ s ∈ exitTrace allDaily buyDate buyPrice isp tpp bet maxHold endDate,
      (s.breakeven = false → s.stop = buyPrice * (1 - isp)) ∧
        (s.breakeven = true → s.stop = buyPrice) := by
  have h0 : StopInv buyPrice isp
      { stop := buyPrice * (1 - isp), highest := buyPrice, breakeven := false } :=
    ⟨fun _ => rfl, fun ht => by simp at ht⟩
  exact exitRun_chain _ buyPrice isp tpp bet hb hisp htpp _ 0 _ h0

set_option maxRecDepth 4000 in
/-- C6 (witness): a concrete run — entry 10, initial stop 5%, trailing 10%,
breakeven trigger 5% — where the stop ratchets 9.5, 9.5, 10 and the exit is
a trailing-profit sale. -/
theorem c6_witness :
    ((0 : ℚ) ≤ 10 ∧ (0 : ℚ) ≤ 1/20 ∧ (1/10 : ℚ) ≤ 1 ∧
      (exitTrace c6daily 0 10 (1/20) (1/10) (1/20) 10 50).map (·.stop) =
        [19/2, 19/2, 10] ∧
      (simulateDailyExit c6daily 0 10 (1/20) (1/10) (1/20) 10 50).map
        (fun r => (r.sellPrice, r.reason, r.holdDays)) =
        some (1035/100, .trailingProfit, 3)) ∧
    List.Chain' (fun a c => effStop (1/10) a ≤ effStop (1/10) c)
      (exitTrace c6daily 0 10 (1/20) (1/10) (1/20) 10 50) ∧
    List.Chain' (fun a c => a.stop ≤ c.stop)
      (exitTrace c6daily 0 10 (1/20) (1/10) (1/20) 10 50) ∧
    ∀ s ∈ exitTrace c6daily 0 10 (1/20) (1/10) (1/20) 10 50,
      (s.breakeven = false → s.stop = 10 * (1 - 1/20)) ∧
        (s.breakeven = true → s.stop = 10) :=
  ⟨⟨by norm_num, by norm_num, by norm_num, by with_unfolding_all rfl,
    by with_unfolding_all rfl⟩,
   c6_thm c6daily 0 10 (1/20) (1/10) (1/20) 10 50 (by norm_num) (by norm_num)
     (by norm_num)⟩

set_option maxRecDepth 4000 in
/-- C4 (counterexample): with an all-negative lookback window the max-break
threshold is `-1%`, the day has a bar returning `+2% > threshold`, yet the
day evaluation produces no trigger — the `threshold <= 0` guard suppresses
the signal under max-break too. -/
theorem c4_counterexample :
    dayTrigger42 c4minBars 8 .maxBreak .mean 0 1 = none ∧
    maxQ ((c4minBars.filter (fun b => b.date < 1)).map barReturn) = some (-1/100) ∧
    ((-1 : ℚ)/100) < 0 ∧
    ((c4minBars.filter (fun b => b.date = 1)).map barReturn).contains (1/50) = true ∧
    ((-1 : ℚ)/100) < 1/50 := by
  with_unfolding_all decide

/-- C4 (amended): under the max-break policy a non-positive window maximum
suppresses every signal of the day, exactly as a non-positive base does
under the multiple-of-median policy. -/
theorem c4_thm (minBars : List MBar) (lookbackBars : ℕ) (sm : StatMethod)
    (mult : ℚ) (d : ℕ) (t : ℚ)
    (hmax : maxQ (((minBars.filter (fun b => b.date < d)).map barReturn).drop
      ((minBars.filter (fun b => b.date < d)).length - lookbackBars)) = some t)
    (ht : t ≤ 0) :
    dayTrigger42 minBars lookbackBars .maxBreak sm mult d = none := by
  simp only [dayTrigger42, threshold42]
  split_ifs with h1 h2
  · rfl
  · rfl
  · rw [hmax]
    simp [ht]

set_option maxRecDepth 4000 in
/-- C4 (witness): the amended suppression theorem at the all-negative
concrete window. -/
theorem c4_witness :
    maxQ (((c4minBars.filter (fun b => b.date < 1)).map barReturn).drop
      ((c4minBars.filter (fun b => b.date < 1)).length - 8)) = some (-1/100) ∧
    ((-1 : ℚ)/100) ≤ 0 ∧
    dayTrigger42 c4minBars 8 .maxBreak .mean 0 1 = none :=
  ⟨by with_unfolding_all decide, by norm_num,
   c4_thm c4minBars 8 .mean 0 1 (-1/100) (by with_unfolding_all decide) (by norm_num)⟩

/-- Lists of minute bars agreeing up to day `d` agree on the bars strictly
before `d`. -/
theorem filter_lt_of_filter_le {l1 l2 : List MBar} {d : ℕ}
    (h : l1.filter (fun b => b.date ≤ d) = l2.filter (fun b => b.date ≤ d)) :
    l1.filter (fun b => b.date < d) = l2.filter (fun b => b.date < d) := by
  have e : ∀ (l : List MBar), l.filter (fun b => b.date < d) =
      (l.filter (fun b => b.date ≤ d)).filter (fun b => b.date < d) := by
    intro l
    rw [List.filter_filter]
    apply List.filter_congr
    intro b _
    by_cases hb : b.date < d
    · simp [hb, Nat.le_of_lt hb]
    · simp [hb]
  rw [e l1, e l2, h]

/-- Lists of minute bars agreeing up to day `d` agree on the bars of day
`d`. -/
theorem filter_eq_of_filter_le {l1 l2 : List MBar} {d : ℕ}
    (h : l1.filter (fun b => b.date ≤ d) = l2.filter (fun b => b.date ≤ d)) :
    l1.filter (fun b => b.date = d) = l2.filter (fun b => b.date = d) := by
  have e : ∀ (l : List MBar), l.filter (fun b => b.date = d) =
      (l.filter (fun b => b.date ≤ d)).filter (fun b => b.date = d) := by
    intro l
    rw [List.filter_filter]
    apply List.filter_congr
    intro b _
    by_cases hb : b.date = d
    · simp [hb]
    · simp [hb]
  rw [e l1, e l2, h]

/-- C3 (amended): the minute-side day trigger of v4.2 depends only on the
bars dated on or before the trigger day (the threshold window reads only
bars dated strictly before it), and the pool-eligibility decision at index
`j` depends only on the first `j + 1` daily bars — the trailing-high window
of the 250 bars before `j` together with day `j`'s own close.  Hence
blanking bars dated strictly after the trigger date leaves the signal
trigger unchanged, while the trigger day's own daily bar does enter the
eligibility decision. -/
theorem c3_thm :
    (∀ (minBars minBars2 : List MBar) (lookbackBars : ℕ) (sigType : SigType)
        (sm : StatMethod) (mult : ℚ) (d : ℕ),
        minBars.filter (fun b => b.date ≤ d) = minBars2.filter (fun b => b.date ≤ d) →
        dayTrigger42 minBars lookbackBars sigType sm mult d =
          dayTrigger42 minBars2 lookbackBars sigType sm mult d) ∧
    (∀ (btStart : ℕ) (ratio : ℚ) (bars bars2 : List DBar) (j : ℕ), 250 ≤ j →
        bars.take (j + 1) = bars2.take (j + 1) →
        poolEligAt btStart ratio bars j = poolEligAt btStart ratio bars2 j) := by
  constructor
  · intro minBars minBars2 lookbackBars sigType sm mult d h
    have hlt := filter_lt_of_filter_le h
    have heq := filter_eq_of_filter_le h
    simp only [dayTrigger42]
    rw [hlt, heq]
  · intro btStart ratio bars bars2 j hj htake
    have hhead : (bars.drop j).head? = (bars2.drop j).head? := by
      have e1 : (bars.take (j + 1))[j]? = bars[j]? :=
        List.getElem?_take_of_lt (by omega)
      have e2 : (bars2.take (j + 1))[j]? = bars2[j]? :=
        List.getElem?_take_of_lt (by omega)
      rw [List.head?_drop, List.head?_drop, ← e1, ← e2, htake]
    have hslice : (bars.drop (j - 250)).take 250 = (bars2.drop (j - 250)).take 250 := by
      have e : ∀ (l : List DBar), (l.drop (j - 250)).take 250 =
          ((l.take (j + 1)).drop (j - 250)).take 250 := by
        intro l
        rw [List.take_drop, List.take_drop, List.take_take]
        congr 2
        omega
      rw [e bars, e bars2, htake]
    simp only [poolEligAt]
    rw [hhead, hslice]

set_option maxHeartbeats 4000000 in
set_option maxRecDepth 4000 in
/-- C3 (counterexample): on the concrete 310-day history the composed
pool-and-scan pipeline emits exactly one signal, triggered on day 308; after
altering only the daily bar dated 308 — the trigger date itself, no earlier
bar — the pipeline emits no signal at all, because the eligibility test for
day 308 reads that day's own close. -/
theorem c3_counterexample :
    (pipelineSignals42 "000001" c3poolDaily c3minBars c3poolDaily 0 c3ratio
      2 8 .maxBreak .mean 0 2).map (·.date) = [308] ∧
    pipelineSignals42 "000001" c3poolDaily2 c3minBars c3poolDaily2 0 c3ratio
      2 8 .maxBreak .mean 0 2 = [] ∧
    c3poolDaily2 = c3poolDaily.map
      (fun b => if b.date = 308 then { b with op := 60, lo := 60, cl := 60 } else b) ∧
    c3poolDaily.filter (fun b => b.date ≠ 308) =
      c3poolDaily2.filter (fun b => b.date ≠ 308) := by
  refine ⟨by with_unfolding_all decide, by with_unfolding_all decide, rfl,
    by with_unfolding_all rfl⟩

set_option maxHeartbeats 4000000 in
set_option maxRecDepth 4000 in
/-- C3 (witness): appending a bar dated after the trigger day changes
neither the day trigger nor the pool-eligibility decision. -/
theorem c3_witness :
    (c3minBars.filter (fun b => b.date ≤ 308) =
        (c3minBars ++ [(⟨400, 1, 1⟩ : MBar)]).filter (fun b => b.date ≤ 308) ∧
      (250 : ℕ) ≤ 308 ∧
      c3poolDaily.take 309 = (c3poolDaily ++ [(⟨400, 1, 1, 1, 1⟩ : DBar)]).take 309) ∧
    dayTrigger42 c3minBars 8 .maxBreak .mean 0 308 =
      dayTrigger42 (c3minBars ++ [⟨400, 1, 1⟩]) 8 .maxBreak .mean 0 308 ∧
    poolEligAt 0 c3ratio c3poolDaily 308 =
      poolEligAt 0 c3ratio (c3poolDaily ++ [⟨400, 1, 1, 1, 1⟩]) 308 :=
  ⟨⟨by with_unfolding_all rfl, by norm_num, by with_unfolding_all rfl⟩,
   c3_thm.1 c3minBars (c3minBars ++ [⟨400, 1, 1⟩]) 8 .maxBreak .mean 0 308
     (by with_unfolding_all rfl),
   c3_thm.2 0 c3ratio c3poolDaily (c3poolDaily ++ [⟨400, 1, 1, 1, 1⟩]) 308
     (by norm_num) (by with_unfolding_all rfl)⟩

/-- `findDatePair` returns the row dated `d` together with the row
immediately following it in the daily frame. -/
theorem findDatePair_split (d : ℕ) :
    ∀ (l : List DBar) (today next : DBar),
      findDatePair d l = some (today, next) →
      today.date = d ∧ ∃ pre post, l = pre ++ today :: next :: post := by
  intro l
  induction l with
  | nil => intro today next h; exact Option.noConfusion h
  | cons x rest ih =>
      intro today next h
      rw [findDatePair] at h
      by_cases hx : x.date = d
      · rw [if_pos hx] at h
        rcases rest with _ | ⟨y, rest2⟩
        · exact Option.noConfusion h
        · simp only [List.head?_cons, Option.some.injEq, Prod.mk.injEq] at h
          obtain ⟨h1, h2⟩ := h
          subst h1
          subst h2
          exact ⟨hx, [], rest2, rfl⟩
      · rw [if_neg hx] at h
        obtain ⟨hd, pre, post, hsplit⟩ := ih today next h
        exact ⟨hd, x :: pre, post, by rw [hsplit]; rfl⟩

/-- C9 (amended): every signal emitted by a v4.2 day evaluation exits on the
very next daily row after the row of its trigger date, at the price and
kind given by the next-bar exit rule: up-limit percentage 20% for
`'68'`/`'30'`-prefixed codes and 10% otherwise, limit price
`round(prior_close * (1 + limit_pct), 2)`, selling at the limit price when
the next day's high reaches it and at the next day's close otherwise. -/
theorem c9_thm (code : String) (minBars : List MBar) (daily : List DBar)
    (lookbackBars : ℕ) (sigType : SigType) (sm : StatMethod) (mult : ℚ)
    (d i : ℕ) (sig : Sig42)
    (h : evalDay42 code minBars daily lookbackBars sigType sm mult d i = some sig) :
    ∃ today next, findDatePair d daily = some (today, next) ∧ today.date = d ∧
      (∃ pre post, daily = pre ++ today :: next :: post) ∧
      sig.sellPrice = roundTo 3 (specNextBarExit code today.cl next.hi next.cl).1 ∧
      sig.sellKind = (specNextBarExit code today.cl next.hi next.cl).2 := by
  rw [evalDay42] at h
  rcases htr : dayTrigger42 minBars lookbackBars sigType sm mult d with _ | p
  · rw [htr] at h
    exact Option.noConfusion h
  · rw [htr] at h
    obtain ⟨tb, th⟩ := p
    rcases hfd : findDatePair d daily with _ | q
    · rw [hfd] at h
      exact Option.noConfusion h
    · rw [hfd] at h
      obtain ⟨today, next⟩ := q
      obtain ⟨hd, pre, post, hsplit⟩ := findDatePair_split d daily today next hfd
      simp only [Option.some.injEq] at h
      subst h
      refine ⟨today, next, rfl, hd, ⟨pre, post, hsplit⟩, ?_, ?_⟩
      · show roundTo 3 _ = _
        simp only [specNextBarExit]
        split_ifs <;> rfl
      · show (if _ ≤ _ then SellKind.limitUp else SellKind.nextClose) = _
        simp only [specNextBarExit]
        split_ifs <;> rfl

set_option maxRecDepth 4000 in
/-- C9 (counterexample): with trigger-day close 10.03 the unrounded limit
price is 11.033, the next day's high 11.03 stays below it, yet the signal
exits at the rounded limit price 11.03 with an up-limit sale rather than at
the next day's close 10.50. -/
theorem c9_counterexample :
    (evalDay42 "000001" c9minBars c9daily 8 .maxBreak .mean 0 308 0).map
      (fun s => (s.sellPrice, s.sellKind)) = some (1103/100, .limitUp) ∧
    (1103/100 : ℚ) < (1003/100) * (1 + 10/100) ∧
    c9daily.map (fun b => (b.date, b.hi, b.cl)) =
      [(308, 100, 1003/100), (309, 1103/100, 105/10)] ∧
    ¬ codeStartsWith "68" "000001" ∧ ¬ codeStartsWith "30" "000001" := by
  refine ⟨by with_unfolding_all rfl, by with_unfolding_all decide,
    by with_unfolding_all rfl, by with_unfolding_all decide⟩

set_option maxRecDepth 4000 in
/-- C9 (witness): the amended next-bar-exit characterisation at the
concrete day evaluation of `c9minBars`/`c9daily`. -/
theorem c9_witness :
    evalDay42 "000001" c9minBars c9daily 8 .maxBreak .mean 0 308 0 =
      some ((evalDay42 "000001" c9minBars c9daily 8 .maxBreak .mean 0 308 0).getD
        dummySig42) ∧
    ∃ today next, findDatePair 308 c9daily = some (today, next) ∧ today.date = 308 ∧
      (∃ pre post, c9daily = pre ++ today :: next :: post) ∧
      ((evalDay42 "000001" c9minBars c9daily 8 .maxBreak .mean 0 308 0).getD
          dummySig42).sellPrice =
        roundTo 3 (specNextBarExit "000001" today.cl next.hi next.cl).1 ∧
      ((evalDay42 "000001" c9minBars c9daily 8 .maxBreak .mean 0 308 0).getD
          dummySig42).sellKind =
        (specNextBarExit "000001" today.cl next.hi next.cl).2 :=
  ⟨by with_unfolding_all rfl,
   c9_thm "000001" c9minBars c9daily 8 .maxBreak .mean 0 308 0
     ((evalDay42 "000001" c9minBars c9daily 8 .maxBreak .mean 0 308 0).getD dummySig42)
     (by with_unfolding_all rfl)⟩

/-- In a strictly sorted list of naturals, the `j`-th element of the tail
exceeds any lower bound of the whole list by at least `j + 1`. -/
theorem sorted_getD_add :
    ∀ (l : List ℕ), List.Sorted (· < ·) l → ∀ (j : ℕ), j < l.length → ∀ (x : ℕ),
      (∀ y ∈ l, x < y) → x + j + 1 ≤ l.getD j 0 := by
  intro l
  induction l with
  | nil =>
      intro _ j hj
      simp at hj
  | cons a rest ih =>
      intro hs j hj x hx
      obtain ⟨hall, hrest⟩ := List.sorted_cons.mp hs
      cases j with
      | zero =>
          have := hx a (List.mem_cons_self a rest)
          simpa using this
      | succ k =>
          have hk : k < rest.length := by simpa using hj
          have h1 := ih hrest k hk a hall
          have hxa := hx a (List.mem_cons_self a rest)
          show x + (k + 1) + 1 ≤ rest.getD k 0
          omega

/-- A day evaluation of v4.2 stamps the signal with the evaluated date and
loop index. -/
theorem evalDay42_date (code : String) (minBars : List MBar) (daily : List DBar)
    (lookbackBars : ℕ) (sigType : SigType) (sm : StatMethod) (mult : ℚ)
    (d i : ℕ) (s : Sig42)
    (h : evalDay42 code minBars daily lookbackBars sigType sm mult d i = some s) :
    s.date = d ∧ s.poolIdx = i := by
  rw [evalDay42] at h
  rcases htr : dayTrigger42 minBars lookbackBars sigType sm mult d with _ | p
  · rw [htr] at h
    exact Option.noConfusion h
  · rw [htr] at h
    obtain ⟨tb, th⟩ := p
    rcases hfd : findDatePair d daily with _ | q
    · rw [hfd] at h
      exact Option.noConfusion h
    · rw [hfd] at h
      obtain ⟨today, next⟩ := q
      simp only [Option.some.injEq] at h
      subst h
      exact ⟨rfl, rfl⟩

/-- A day evaluation of v5 stamps the signal with the evaluated date and
loop index. -/
theorem evalDayV5_date (minBars : List MBar) (daily : List DBar)
    (lookbackBars : ℕ) (isp tpp bet : ℚ) (maxHold endDate : ℕ) (d i : ℕ)
    (s : Sig5)
    (h : evalDayV5 minBars daily lookbackBars isp tpp bet maxHold endDate d i = some s) :
    s.date = d ∧ s.poolIdx = i := by
  simp only [evalDayV5] at h
  repeat' split at h
  all_goals
    first
      | exact Option.noConfusion h
      | (simp only [Option.some.injEq] at h; subst h; exact ⟨rfl, rfl⟩)

/-- Cooldown invariant of the v4.2 scan loop: emitted signals carry strictly
increasing loop indices with gaps above the cooldown, and — on a strictly
sorted date list — dates whose gaps are at least `cooldown + 1`. -/
theorem scan42Go_spec (code : String) (minBars : List MBar) (daily : List DBar)
    (lookbackBars : ℕ) (sigType : SigType) (sm : StatMethod) (mult : ℚ)
    (cooldown : ℕ) :
    ∀ (dates : List ℕ) (i : ℕ) (lastIdx : ℤ), List.Sorted (· < ·) dates →
      List.Chain' (fun s1 s2 => s1.date + cooldown + 1 ≤ s2.date)
        (scan42Go code minBars daily lookbackBars sigType sm mult cooldown i lastIdx dates) ∧
      ∀ s ∈ scan42Go code minBars daily lookbackBars sigType sm mult cooldown i lastIdx dates,
        ∃ j, j < dates.length ∧ s.poolIdx = i + j ∧ s.date = dates.getD j 0 ∧
          lastIdx + (cooldown : ℤ) < ((i + j : ℕ) : ℤ) := by
  intro dates
  induction dates with
  | nil =>
      intro i lastIdx _
      exact ⟨by rw [scan42Go]; exact List.chain'_nil,
        fun s hs => absurd (by rw [scan42Go] at hs; exact hs) (List.not_mem_nil s)⟩
  | cons d rest ih =>
      intro i lastIdx hs
      obtain ⟨hall, hrest⟩ := List.sorted_cons.mp hs
      rw [scan42Go]
      by_cases hg : (i : ℤ) - lastIdx ≤ (cooldown : ℤ)
      · rw [if_pos hg]
        obtain ⟨hc, hmem⟩ := ih (i + 1) lastIdx hrest
        refine ⟨hc, ?_⟩
        intro s hsm
        obtain ⟨j, hj, hpi, hdate, hlt⟩ := hmem s hsm
        refine ⟨j + 1, by simpa using hj, by omega, hdate, ?_⟩
        push_cast at hlt ⊢
        omega
      · rw [if_neg hg]
        rcases hev : evalDay42 code minBars daily lookbackBars sigType sm mult d i with _ | s0
        · simp only [hev]
          obtain ⟨hc, hmem⟩ := ih (i + 1) lastIdx hrest
          refine ⟨hc, ?_⟩
          intro s hsm
          obtain ⟨j, hj, hpi, hdate, hlt⟩ := hmem s hsm
          refine ⟨j + 1, by simpa using hj, by omega, hdate, ?_⟩
          push_cast at hlt ⊢
          omega
        · simp only [hev]
          obtain ⟨hc, hmem⟩ := ih (i + 1) (i : ℤ) hrest
          have hd0 := evalDay42_date code minBars daily lookbackBars sigType sm mult d i s0 hev
          constructor
          · rw [List.chain'_cons']
            refine ⟨?_, hc⟩
            intro y hy
            obtain ⟨j, hj, hpi, hdate, hlt⟩ := hmem y (List.mem_of_mem_head? hy)
            have hcj : cooldown ≤ j := by push_cast at hlt; omega
            have hgd := sorted_getD_add rest hrest j hj d hall
            rw [hd0.1, hdate]
            omega
          · intro s hsm
            rcases List.mem_cons.mp hsm with hseq | hsm2
            · subst hseq
              refine ⟨0, by simp, by rw [hd0.2]; omega, hd0.1, ?_⟩
              push_cast
              omega
            · obtain ⟨j, hj, hpi, hdate, hlt⟩ := hmem s hsm2
              refine ⟨j + 1, by simpa using hj, by omega, hdate, ?_⟩
              push_cast at hlt ⊢
              omega

/-- Unfolding of the v5 scan loop on an empty date list. -/
theorem scanV5Go_nil (minBars : List MBar) (daily : List DBar) (lookbackBars : ℕ)
    (isp tpp bet : ℚ) (maxHold endDate cooldown : ℕ) (i : ℕ) (lastIdx : ℤ)
    (lastSell : Option ℕ) :
    scanV5Go minBars daily lookbackBars isp tpp bet maxHold endDate cooldown
      i lastIdx lastSell [] = [] := rfl

/-- Unfolding of the v5 scan loop on a date-list cons. -/
theorem scanV5Go_cons (minBars : List MBar) (daily : List DBar) (lookbackBars : ℕ)
    (isp tpp bet : ℚ) (maxHold endDate cooldown : ℕ) (i : ℕ) (lastIdx : ℤ)
    (lastSell : Option ℕ) (d : ℕ) (rest : List ℕ) :
    scanV5Go minBars daily lookbackBars isp tpp bet maxHold endDate cooldown
      i lastIdx lastSell (d :: rest) =
      (if (i : ℤ) - lastIdx ≤ (cooldown : ℤ) then
        scanV5Go minBars daily lookbackBars isp tpp bet maxHold endDate cooldown
          (i + 1) lastIdx lastSell rest
      else if (match lastSell with | some s => decide (d ≤ s) | none => false) = true then
        scanV5Go minBars daily lookbackBars isp tpp bet maxHold endDate cooldown
          (i + 1) lastIdx lastSell rest
      else
        match evalDayV5 minBars daily lookbackBars isp tpp bet maxHold endDate d i with
        | none =>
            scanV5Go minBars daily lookbackBars isp tpp bet maxHold endDate cooldown
              (i + 1) lastIdx lastSell rest
        | some sig =>
            let stds := List.range' d (sig.holdDays + 1)
            let ls2 := if sig.holdDays < stds.length then some (stds.getD sig.holdDays 0)
                       else lastSell
            sig :: scanV5Go minBars daily lookbackBars isp tpp bet maxHold endDate
              cooldown (i + 1) (i : ℤ) ls2 rest) := rfl

/-- Cooldown invariant of the v5 scan loop, as for v4.2. -/
theorem scanV5Go_spec (minBars : List MBar) (daily : List DBar)
    (lookbackBars : ℕ) (isp tpp bet : ℚ) (maxHold endDate : ℕ) (cooldown : ℕ) :
    ∀ (dates : List ℕ) (i : ℕ) (lastIdx : ℤ) (lastSell : Option ℕ),
      List.Sorted (· < ·) dates →
      List.Chain' (fun s1 s2 => s1.date + cooldown + 1 ≤ s2.date)
        (scanV5Go minBars daily lookbackBars isp tpp bet maxHold endDate cooldown
          i lastIdx lastSell dates) ∧
      ∀ s ∈ scanV5Go minBars daily lookbackBars isp tpp bet maxHold endDate cooldown
          i lastIdx lastSell dates,
        ∃ j, j < dates.length ∧ s.poolIdx = i + j ∧ s.date = dates.getD j 0 ∧
          lastIdx + (cooldown : ℤ) < ((i + j : ℕ) : ℤ) := by
  intro dates
  induction dates with
  | nil =>
      intro i lastIdx lastSell _
      exact ⟨by rw [scanV5Go_nil]; exact List.chain'_nil,
        fun s hs => absurd (by rw [scanV5Go_nil] at hs; exact hs) (List.not_mem_nil s)⟩
  | cons d rest ih =>
      intro i lastIdx lastSell hs
      obtain ⟨hall, hrest⟩ := List.sorted_cons.mp hs
      rw [scanV5Go_cons]
      by_cases hg : (i : ℤ) - lastIdx ≤ (cooldown : ℤ)
      · rw [if_pos hg]
        obtain ⟨hc, hmem⟩ := ih (i + 1) lastIdx lastSell hrest
        refine ⟨hc, ?_⟩
        intro s hsm
        obtain ⟨j, hj, hpi, hdate, hlt⟩ := hmem s hsm
        refine ⟨j + 1, by simpa using hj, by omega, hdate, ?_⟩
        push_cast at hlt ⊢
        omega
      · rw [if_neg hg]
        by_cases hg2 :
            (match lastSell with | some s => decide (d ≤ s) | none => false) = true
        · rw [if_pos hg2]
          obtain ⟨hc, hmem⟩ := ih (i + 1) lastIdx lastSell hrest
          refine ⟨hc, ?_⟩
          intro s hsm
          obtain ⟨j, hj, hpi, hdate, hlt⟩ := hmem s hsm
          refine ⟨j + 1, by simpa using hj, by omega, hdate, ?_⟩
          push_cast at hlt ⊢
          omega
        · rw [if_neg hg2]
          rcases hev : evalDayV5 minBars daily lookbackBars isp tpp bet maxHold endDate d i
            with _ | s0
          · simp only [hev]
            obtain ⟨hc, hmem⟩ := ih (i + 1) lastIdx lastSell hrest
            refine ⟨hc, ?_⟩
            intro s hsm
            obtain ⟨j, hj, hpi, hdate, hlt⟩ := hmem s hsm
            refine ⟨j + 1, by simpa using hj, by omega, hdate, ?_⟩
            push_cast at hlt ⊢
            omega
          · simp only [hev]
            obtain ⟨hc, hmem⟩ := ih (i + 1) (i : ℤ) _ hrest
            have hd0 := evalDayV5_date minBars daily lookbackBars isp tpp bet maxHold
              endDate d i s0 hev
            constructor
            · rw [List.chain'_cons']
              refine ⟨?_, hc⟩
              intro y hy
              obtain ⟨j, hj, hpi, hdate, hlt⟩ := hmem y (List.mem_of_mem_head? hy)
              have hcj : cooldown ≤ j := by push_cast at hlt; omega
              have hgd := sorted_getD_add rest hrest j hj d hall
              rw [hd0.1, hdate]
              omega
            · intro s hsm
              rcases List.mem_cons.mp hsm with hseq | hsm2
              · subst hseq
                refine ⟨0, by simp, by rw [hd0.2]; omega, hd0.1, ?_⟩
                push_cast
                omega
              · obtain ⟨j, hj, hpi, hdate, hlt⟩ := hmem s hsm2
                refine ⟨j + 1, by simpa using hj, by omega, hdate, ?_⟩
                push_cast at hlt ⊢
                omega

/-- No-overlap invariant of the v5 scan loop: each emitted signal's trigger
date lies strictly after the recorded sell date (`trigger date + hold
days`) of the previously emitted signal, and the head of the output lies
strictly after any inherited `last_sell_date`. -/
theorem scanV5Go_overlap (minBars : List MBar) (daily : List DBar)
    (lookbackBars : ℕ) (isp tpp bet : ℚ) (maxHold endDate : ℕ) (cooldown : ℕ) :
    ∀ (dates : List ℕ) (i : ℕ) (lastIdx : ℤ) (lastSell : Option ℕ),
      List.Chain' (fun s1 s2 => s1.date + s1.holdDays < s2.date)
        (scanV5Go minBars daily lookbackBars isp tpp bet maxHold endDate cooldown
          i lastIdx lastSell dates) ∧
      ∀ s, (scanV5Go minBars daily lookbackBars isp tpp bet maxHold endDate cooldown
          i lastIdx lastSell dates).head? = some s →
        ∀ v, lastSell = some v → v < s.date := by
  intro dates
  induction dates with
  | nil =>
      intro i lastIdx lastSell
      constructor
      · rw [scanV5Go_nil]
        exact List.chain'_nil
      · intro s hs
        rw [scanV5Go_nil] at hs
        exact Option.noConfusion hs
  | cons d rest ih =>
      intro i lastIdx lastSell
      rw [scanV5Go_cons]
      by_cases hg : (i : ℤ) - lastIdx ≤ (cooldown : ℤ)
      · rw [if_pos hg]
        exact ih (i + 1) lastIdx lastSell
      · rw [if_neg hg]
        by_cases hg2 :
            (match lastSell with | some s => decide (d ≤ s) | none => false) = true
        · rw [if_pos hg2]
          exact ih (i + 1) lastIdx lastSell
        · rw [if_neg hg2]
          rcases hev : evalDayV5 minBars daily lookbackBars isp tpp bet maxHold endDate d i
            with _ | sig
          · simp only [hev]
            exact ih (i + 1) lastIdx lastSell
          · simp only [hev]
            have hd0 := evalDayV5_date minBars daily lookbackBars isp tpp bet maxHold
              endDate d i sig hev
            have hls :
                (if sig.holdDays < (List.range' d (sig.holdDays + 1)).length then
                    some ((List.range' d (sig.holdDays + 1)).getD sig.holdDays 0)
                  else lastSell) = some (d + sig.holdDays) := by
              rw [if_pos (by simp [List.length_range'])]
              congr 1
              rw [List.getD, List.get?_eq_getElem?, List.getElem?_range' d 1 (by omega)]
              simp
            rw [hls]
            obtain ⟨hcrest, hhead⟩ := ih (i + 1) (i : ℤ) (some (d + sig.holdDays))
            constructor
            · rw [List.chain'_cons']
              refine ⟨?_, hcrest⟩
              intro y hy
              have hv := hhead y (by simpa using hy) (d + sig.holdDays) rfl
              rw [hd0.1]
              omega
            · intro s hshead v hv
              simp only [List.head?_cons, Option.some.injEq] at hshead
              subst hshead
              subst hv
              simp only [decide_eq_true_eq] at hg2
              rw [hd0.1]
              omega

/-- C8: in both v4.2's `backtest_single_rolling` scan and v5's
`backtest_signals` scan, when the scanned pool-date list is strictly
increasing (as trading-day ordinals), any two consecutively emitted signals
of the instrument are at least `cooldown + 1` trading days apart. -/
theorem c8_thm :
    (∀ (code : String) (minBars : List MBar) (daily : List DBar)
        (validDates : List ℕ) (lookbackDays lookbackBars : ℕ)
        (sigType : SigType) (sm : StatMethod) (mult : ℚ) (cooldown : ℕ),
        List.Sorted (· < ·) (tradeDates42 minBars validDates) →
        List.Chain' (fun s1 s2 => s1.date + cooldown + 1 ≤ s2.date)
          (scan42 code minBars daily validDates lookbackDays lookbackBars
            sigType sm mult cooldown)) ∧
    (∀ (minBars : List MBar) (daily : List DBar) (validDates : List ℕ)
        (lookbackBars : ℕ) (isp tpp bet : ℚ) (maxHold endDate cooldown : ℕ),
        List.Sorted (· < ·) (tradeDates42 minBars validDates) →
        List.Chain' (fun s1 s2 => s1.date + cooldown + 1 ≤ s2.date)
          (scanV5 minBars daily validDates lookbackBars isp tpp bet maxHold
            endDate cooldown)) := by
  constructor
  · intro code minBars daily validDates lookbackDays lookbackBars sigType sm mult
      cooldown hsorted
    rw [scan42]
    split_ifs
    · exact List.chain'_nil
    · exact List.chain'_nil
    · exact (scan42Go_spec code minBars daily lookbackBars sigType sm mult cooldown
        (tradeDates42 minBars validDates) 0 (-999) hsorted).1
  · intro minBars daily validDates lookbackBars isp tpp bet maxHold endDate
      cooldown hsorted
    rw [scanV5]
    split_ifs
    · exact List.chain'_nil
    · exact (scanV5Go_spec minBars daily lookbackBars isp tpp bet maxHold endDate
        cooldown (tradeDates42 minBars validDates) 0 (-999) none hsorted).1

set_option maxRecDepth 4000 in
/-- C8 (witness): a concrete pool with cooldown 2 where both scanners emit
signals on days 10 and 13 — three trading days apart. -/
theorem c8_witness :
    (List.Sorted (· < ·) (tradeDates42 c8minBars [10, 11, 12, 13]) ∧
      (scan42 "000001" c8minBars c8daily [10, 11, 12, 13] 0 2 .maxBreak .mean 0
        2).map (·.date) = [10, 13] ∧
      (scanV5 c8minBars c8daily [10, 11, 12, 13] 2 (1/20) (1/10) (1/20) 10 50
        2).map (·.date) = [10, 13]) ∧
    List.Chain' (fun s1 s2 => s1.date + 2 + 1 ≤ s2.date)
      (scan42 "000001" c8minBars c8daily [10, 11, 12, 13] 0 2 .maxBreak .mean 0 2) ∧
    List.Chain' (fun s1 s2 => s1.date + 2 + 1 ≤ s2.date)
      (scanV5 c8minBars c8daily [10, 11, 12, 13] 2 (1/20) (1/10) (1/20) 10 50 2) :=
  ⟨⟨by with_unfolding_all decide, by with_unfolding_all decide,
    by with_unfolding_all decide⟩,
   c8_thm.1 "000001" c8minBars c8daily [10, 11, 12, 13] 0 2 .maxBreak .mean 0 2
     (by with_unfolding_all decide),
   c8_thm.2 c8minBars c8daily [10, 11, 12, 13] 2 (1/20) (1/10) (1/20) 10 50 2
     (by with_unfolding_all decide)⟩

set_option maxRecDepth 4000 in
/-- C10: the per-instrument signal list of v5's `backtest_signals` never
contains a signal whose trigger date is on or before the recorded sell date
(`trigger date + hold days`, the value stored into `last_sell_date`) of the
previously emitted signal, for every input; on the concrete `c8minBars`
data the scan emits trades (10, hold 1) and (13, hold 1), the second
entered strictly after the first's sell date 11. -/
theorem c10_thm :
    (∀ (minBars : List MBar) (daily : List DBar) (validDates : List ℕ)
        (lookbackBars : ℕ) (isp tpp bet : ℚ) (maxHold endDate cooldown : ℕ),
        List.Chain' (fun s1 s2 => s1.date + s1.holdDays < s2.date)
          (scanV5 minBars daily validDates lookbackBars isp tpp bet maxHold
            endDate cooldown)) ∧
    (scanV5 c8minBars c8daily [10, 11, 12, 13] 2 (1/20) (1/10) (1/20) 10 50 2).map
      (fun s => (s.date, s.holdDays)) = [(10, 1), (13, 1)] := by
  constructor
  · intro minBars daily validDates lookbackBars isp tpp bet maxHold endDate cooldown
    rw [scanV5]
    split_ifs
    · exact List.chain'_nil
    · exact (scanV5Go_overlap minBars daily lookbackBars isp tpp bet maxHold endDate
        cooldown (tradeDates42 minBars validDates) 0 (-999) none).1
  · with_unfolding_all decide
